import Mathlib

/-!
Verification development for the verified-registry actor core of
mriise/builtin-actors: the `DataCap` numeric newtype and its token
conversions, the `AddrPairKey` canonicalizer (types.rs), the registry
`State` verifier operations (state.rs), and the dual-authorization
remove-data-cap protocol (specified in §4.3 of the design document; its
handler is exercised by verifreg_remove_datacap_test.rs).

Machine integers: Rust `BigInt` is embedded as `Int`; `u64` counters are
embedded as `Nat` (the spec describes them as monotonic counters
incremented by 1; overflow at 2^64 is out of scope of every claim
considered). Fallible Rust code returns `Option`/explicit error values.
-/

/-! ## Address encoding

Modelled from the spec: the spec (§3, §4.4) refers to the "canonical byte
encoding" of an `fvm_shared` address, which is not part of the excerpted
sources.  A Filecoin address encodes as a protocol byte followed by the
payload: protocol 0 (ID) carries an unsigned LEB128 varint of the actor
id, protocols 1 (secp256k1) and 2 (actor) carry a 20-byte hash, and
protocol 3 (BLS) carries a 48-byte public key. -/

/-- Fuel-driven worker for the unsigned LEB128 varint encoder; the fuel is
only a termination device, `varintAux_fuel` below shows the result is
fuel-independent once the fuel dominates the argument. -/
def varintAux (fuel n : Nat) : List Nat :=
  match fuel with
  | 0 => [n]
  | f + 1 => if n < 128 then [n] else (n % 128 + 128) :: varintAux f (n / 128)

/-- Unsigned LEB128 varint encoding of a natural number, little-endian
7-bit groups, continuation bit (value 128) on every byte but the last. -/
def varint (n : Nat) : List Nat := varintAux n n

/-- Filecoin address, by protocol. -/
inductive Address where
  | id (n : Nat)
  | secp (payload : List Nat)
  | actor (payload : List Nat)
  | bls (payload : List Nat)
deriving DecidableEq, Repr

/-- Well-formedness of an address: fixed payload sizes for the
non-ID protocols (20 bytes for secp256k1 and actor, 48 for BLS). -/
def Address.wf : Address → Bool
  | .id _ => true
  | .secp p => p.length == 20
  | .actor p => p.length == 20
  | .bls p => p.length == 48

/-- Canonical byte encoding of an address: protocol byte then payload. -/
def Address.to_bytes : Address → List Nat
  | .id n => 0 :: varint n
  | .secp p => 1 :: p
  | .actor p => 2 :: p
  | .bls p => 3 :: p

/-! ## DataCap and token conversions (src/actors/verifreg/src/types.rs) -/

/-- Modelled from the spec: `TOKEN_PRECISION` lives in the actor's `ext`
module, outside the excerpted sources; the spec fixes PRECISION = 10^18. -/
def TOKEN_PRECISION : Int := 10 ^ 18

/-- Token quantity with implicit 18-decimal-place precision
(`fvm_shared::econ::TokenAmount`, a wrapped `BigInt`). -/
abbrev TokenAmount := Int

/-- DataCap is an integer number of bytes; a newtype over `BigInt`
(types.rs line 38). -/
structure DataCap where
  val : Int
deriving DecidableEq, Repr

/-- DataCap of zero (types.rs `DataCap::zero`). -/
def DataCap.zero : DataCap := ⟨0⟩

/-- Embeds types.rs `DataCap::is_zero`. -/
def DataCap.is_zero (d : DataCap) : Bool := d.val == 0

/-- Embeds types.rs `DataCap::is_positive` (num_traits `Signed`). -/
def DataCap.is_positive (d : DataCap) : Bool := decide (0 < d.val)

/-- Embeds types.rs `DataCap::is_negative` (num_traits `Signed`). -/
def DataCap.is_negative (d : DataCap) : Bool := decide (d.val < 0)

/-- Embeds types.rs `DataCap::from_tokens`: divides by the token
precision, truncating any remainder (Rust `BigInt` division truncates
toward zero, which is `Int.tdiv`). -/
def DataCap.from_tokens (t : TokenAmount) : DataCap := ⟨Int.tdiv t TOKEN_PRECISION⟩

/-- Embeds types.rs `DataCap::to_tokens`: multiplies by the token
precision. -/
def DataCap.to_tokens (d : DataCap) : TokenAmount := d.val * TOKEN_PRECISION

/-- Embeds types.rs `impl Sub for DataCap`: subtraction on the wrapped
integer, no clamping. -/
def DataCap.sub (a b : DataCap) : DataCap := ⟨a.val - b.val⟩

/-- Embeds types.rs `impl Add for DataCap`: addition on the wrapped
integer. -/
def DataCap.add (a b : DataCap) : DataCap := ⟨a.val + b.val⟩

/-! ## Pair-key canonicalizer (src/actors/verifreg/src/types.rs) -/

/-- Embeds types.rs `AddrPairKey`: an ordered pair of addresses. -/
structure AddrPairKey where
  first : Address
  second : Address
deriving DecidableEq, Repr

/-- Embeds types.rs `AddrPairKey::new`. -/
def AddrPairKey.new (first second : Address) : AddrPairKey := ⟨first, second⟩

/-- Embeds types.rs `AddrPairKey::to_bytes`: the byte encoding of `first`
with the byte encoding of `second` appended (`first.append(&mut second)`). -/
def AddrPairKey.to_bytes (k : AddrPairKey) : List Nat :=
  k.first.to_bytes ++ k.second.to_bytes

/-! ## Persistent map

Modelled from the spec: the HAMT implementation behind
`make_map_with_root_and_bitwidth` is not part of the excerpted sources.
The spec (§4.1) gives its contract: `get`, `set` (insert or overwrite),
`delete` (signalling NotFound), and `flush` returning a deterministic
content-derived root.  The model identifies a root with the canonical
contents it addresses, as a key/value association list; `flush` and
loading a root are then the identity. -/

/-- Root of a persistent map with byte-string keys and values in `α`,
identified with the map contents it addresses. -/
abbrev MapRoot (α : Type) : Type := List (List Nat × α)

/-- Map lookup (spec §4.1 `get`). -/
def mapGet {α : Type} (m : MapRoot α) (k : List Nat) : Option α :=
  match m with
  | [] => none
  | (k2, v) :: rest => if k2 = k then some v else mapGet rest k

/-- Map insert-or-overwrite (spec §4.1 `set`). -/
def mapSet {α : Type} (m : MapRoot α) (k : List Nat) (v : α) : MapRoot α :=
  match m with
  | [] => [(k, v)]
  | (k2, v2) :: rest => if k2 = k then (k, v) :: rest else (k2, v2) :: mapSet rest k v

/-- Map deletion (spec §4.1 `delete`): `none` signals NotFound, otherwise
the map with the entry removed. -/
def mapDelete {α : Type} (m : MapRoot α) (k : List Nat) : Option (MapRoot α) :=
  match m with
  | [] => none
  | (k2, v2) :: rest =>
    if k2 = k then some rest else (mapDelete rest k).map (fun r => (k2, v2) :: r)

/-- Keys of a map are pairwise distinct.  The spec (§3) guarantees map
roots are only ever produced by this actor's own mutation operations,
which preserve this. -/
def mapNodup {α : Type} (m : MapRoot α) : Prop := (m.map Prod.fst).Nodup

instance {α : Type} (m : MapRoot α) : Decidable (mapNodup m) := by
  unfold mapNodup
  infer_instance

/-! ## Errors (fil_actors_runtime `ActorError`, fvm_shared `ExitCode`) -/

/-- Exit codes used by the verified-registry core (fvm_shared). -/
inductive ExitCode where
  | usrIllegalArgument
  | usrForbidden
  | usrIllegalState
deriving DecidableEq, Repr

/-- Actor-level error: an exit code and a message. -/
structure ActorError where
  code : ExitCode
  msg : String
deriving DecidableEq, Repr

/-! ## Registry state (src/actors/verifreg/src/state.rs) -/

/-- Monotonic replay counter stored in `remove_data_cap_proposal_ids`
(types.rs `RemoveDataCapProposalID`, a `u64`). -/
structure RemoveDataCapProposalID where
  id : Nat
deriving DecidableEq, Repr

/-- Embeds state.rs `State` (lines 17-23): root authority address, token
actor address, and the roots of the two persistent maps. -/
structure State where
  root_key : Address
  token : Address
  verifiers : MapRoot DataCap
  remove_data_cap_proposal_ids : MapRoot RemoveDataCapProposalID
deriving DecidableEq, Repr

/-- Embeds state.rs `State::put_verifier` (lines 39-56): loads the
verifiers map from its root, sets the cap for the verifier's address
bytes (insert or overwrite), flushes, and stores the new root on `self`.
The result pairs the state `self` holds after the call with the error, if
any; with a valid store the only fallible step, the NotFound-free map
update, cannot fail. -/
def State.put_verifier (s : State) (verifier : Address) (cap : DataCap) :
    State × Option ActorError :=
  ({ s with verifiers := mapSet s.verifiers verifier.to_bytes cap }, none)

/-- Embeds state.rs `State::remove_verifier` (lines 58-76): loads the
verifiers map, deletes the verifier's entry — a missing entry surfaces as
USR_ILLEGAL_ARGUMENT "verifier not found" with `self` left untouched —
then flushes and stores the new root on `self`. -/
def State.remove_verifier (s : State) (verifier : Address) :
    State × Option ActorError :=
  match mapDelete s.verifiers verifier.to_bytes with
  | none => (s, some ⟨ExitCode.usrIllegalArgument, "verifier not found"⟩)
  | some m => ({ s with verifiers := m }, none)

/-- Embeds state.rs `State::get_verifier_cap` (lines 78-90): loads the
verifiers map from its root and looks up the verifier's address bytes;
takes `self` by shared reference, so no state is produced. -/
def State.get_verifier_cap (s : State) (verifier : Address) : Option DataCap :=
  mapGet s.verifiers verifier.to_bytes

/-! ## Dual-authorization removal protocol

Modelled from the spec: the handler of remove-verified-client-data-cap is
not part of the excerpted sources (only its end-to-end test,
verifreg_remove_datacap_test.rs, is); the definition below follows the
contract of spec §4.3 step by step.  The signature-verification
capability and the deterministic proposal serialization are external
collaborators (spec §6) and are passed in as functions; the token actor's
balance for the client is passed in as the observed token quantity, and
its `destroy` call is modelled as reducing that balance by the requested
amount (spec §6). -/

/-- Signature with its raw bytes (fvm_shared `Signature`); only the
verification capability interprets it. -/
structure Signature where
  bytes : List Nat
deriving DecidableEq, Repr

/-- Embeds types.rs `RemoveDataCapRequest` (lines 166-170). -/
structure RemoveDataCapRequest where
  verifier : Address
  signature : Signature
deriving DecidableEq, Repr

/-- Embeds types.rs `RemoveDataCapParams` (lines 158-164). -/
structure RemoveDataCapParams where
  verified_client_to_remove : Address
  data_cap_amount_to_remove : DataCap
  verifier_request_1 : RemoveDataCapRequest
  verifier_request_2 : RemoveDataCapRequest
deriving DecidableEq, Repr

/-- Embeds types.rs `RemoveDataCapReturn` (lines 174-178). -/
structure RemoveDataCapReturn where
  verified_client : Address
  data_cap_removed : DataCap
deriving DecidableEq, Repr

/-- Embeds types.rs `RemoveDataCapProposal` (lines 184-189): the payload a
verifier signs over, reconstructed by the actor from the current counter. -/
structure RemoveDataCapProposal where
  verified_client : Address
  data_cap_amount : DataCap
  removal_proposal_id : RemoveDataCapProposalID
deriving DecidableEq, Repr

/-- Embeds types.rs `SIGNATURE_DOMAIN_SEPARATION_REMOVE_DATA_CAP`
(line 154): the bytes of the literal "fil_removedatacap:". -/
def SIGNATURE_DOMAIN_SEPARATION_REMOVE_DATA_CAP : List Nat :=
  "fil_removedatacap:".data.map Char.toNat

/-- Modelled from the spec (§4.3): the dual-authorization removal
protocol.  `verify key msg sig` is the external signature-verification
capability applied to the verifier's key, `serializeProposal` the
deterministic proposal serialization, `clientBalance` the client's
balance observed at the token actor.  On success it returns the new
state, the client's new token balance after the destroy call, and the
`RemoveDataCapReturn` value. -/
def removeVerifiedClientDataCap
    (verify : Address → List Nat → Signature → Bool)
    (serializeProposal : RemoveDataCapProposal → List Nat)
    (s : State) (clientBalance : TokenAmount)
    (params : RemoveDataCapParams) :
    Except ActorError (State × TokenAmount × RemoveDataCapReturn) :=
  let client := params.verified_client_to_remove
  let v1 := params.verifier_request_1.verifier
  let v2 := params.verifier_request_2.verifier
  if v1 = v2 then
    .error ⟨ExitCode.usrIllegalArgument, "need two different verifiers"⟩
  else if (mapGet s.verifiers v1.to_bytes).isNone then
    .error ⟨ExitCode.usrIllegalArgument, "verifier 1 not found"⟩
  else if (mapGet s.verifiers v2.to_bytes).isNone then
    .error ⟨ExitCode.usrIllegalArgument, "verifier 2 not found"⟩
  else if !params.data_cap_amount_to_remove.is_positive then
    .error ⟨ExitCode.usrIllegalArgument, "amount to remove must be positive"⟩
  else
    let key1 := (AddrPairKey.new v1 client).to_bytes
    let key2 := (AddrPairKey.new v2 client).to_bytes
    let id1 := (mapGet s.remove_data_cap_proposal_ids key1).getD ⟨0⟩
    let id2 := (mapGet s.remove_data_cap_proposal_ids key2).getD ⟨0⟩
    let payload1 := SIGNATURE_DOMAIN_SEPARATION_REMOVE_DATA_CAP ++
      serializeProposal ⟨client, params.data_cap_amount_to_remove, id1⟩
    let payload2 := SIGNATURE_DOMAIN_SEPARATION_REMOVE_DATA_CAP ++
      serializeProposal ⟨client, params.data_cap_amount_to_remove, id2⟩
    if !verify v1 payload1 params.verifier_request_1.signature then
      .error ⟨ExitCode.usrForbidden, "signature of verifier 1 invalid"⟩
    else if !verify v2 payload2 params.verifier_request_2.signature then
      .error ⟨ExitCode.usrForbidden, "signature of verifier 2 invalid"⟩
    else
      let amount : DataCap :=
        ⟨min params.data_cap_amount_to_remove.val (DataCap.from_tokens clientBalance).val⟩
      let ids1 := mapSet s.remove_data_cap_proposal_ids key1 ⟨id1.id + 1⟩
      let ids2 := mapSet ids1 key2 ⟨id2.id + 1⟩
      .ok ({ s with remove_data_cap_proposal_ids := ids2 },
           clientBalance - amount.to_tokens,
           ⟨client, amount⟩)

/-- Concrete registry state used to demonstrate a successful removal run:
two registered verifiers (ID addresses 1 and 2) with 5-byte allowances
and no replay counters yet. -/
def removalDemoState : State :=
  State.mk (Address.id 100) (Address.id 7)
    [((Address.id 1).to_bytes, DataCap.mk 5), ((Address.id 2).to_bytes, DataCap.mk 5)]
    []

/-- Concrete removal request: remove 2 data-cap units from client (ID
address 3), authorized by verifiers 1 and 2. -/
def removalDemoParams : RemoveDataCapParams :=
  RemoveDataCapParams.mk (Address.id 3) (DataCap.mk 2)
    (RemoveDataCapRequest.mk (Address.id 1) (Signature.mk []))
    (RemoveDataCapRequest.mk (Address.id 2) (Signature.mk []))

/-- Registry state after the demonstration removal run: both (verifier,
client) replay counters advanced from the implicit 0 to 1. -/
def removalDemoResultState : State :=
  State.mk (Address.id 100) (Address.id 7)
    [((Address.id 1).to_bytes, DataCap.mk 5), ((Address.id 2).to_bytes, DataCap.mk 5)]
    [([0, 1, 0, 3], RemoveDataCapProposalID.mk 1),
     ([0, 2, 0, 3], RemoveDataCapProposalID.mk 1)]

/-! ## Lemmas about the persistent-map model -/

/-- Looking up a key just set finds the value set. -/
theorem mapGet_mapSet_self {α : Type} (m : MapRoot α) (k : List Nat) (v : α) :
    mapGet (mapSet m k v) k = some v := by
  induction m with
  | nil => simp [mapSet, mapGet]
  | cons hd tl ih =>
    obtain ⟨k2, v2⟩ := hd
    by_cases h : k2 = k
    · simp [mapSet, h, mapGet]
    · simp [mapSet, h, mapGet, ih]

/-- Setting one key leaves lookups of any other key unchanged. -/
theorem mapGet_mapSet_other {α : Type} (m : MapRoot α) (k k2 : List Nat) (v : α)
    (h : k ≠ k2) : mapGet (mapSet m k v) k2 = mapGet m k2 := by
  induction m with
  | nil => simp [mapSet, mapGet, h]
  | cons hd tl ih =>
    obtain ⟨k3, v3⟩ := hd
    by_cases h3 : k3 = k
    · subst h3
      simp [mapSet, mapGet, h]
    · simp [mapSet, h3, mapGet, ih]

/-- Deletion of an absent key signals NotFound. -/
theorem mapDelete_eq_none {α : Type} (m : MapRoot α) (k : List Nat)
    (h : mapGet m k = none) : mapDelete m k = none := by
  induction m with
  | nil => simp [mapDelete]
  | cons hd tl ih =>
    obtain ⟨k2, v2⟩ := hd
    by_cases h2 : k2 = k
    · simp [mapGet, h2] at h
    · simp [mapGet, h2] at h
      simp [mapDelete, h2, ih h]

/-- Lookup misses when the key is not among the map's keys. -/
theorem mapGet_eq_none_of_not_mem {α : Type} (m : MapRoot α) (k : List Nat)
    (h : k ∉ m.map Prod.fst) : mapGet m k = none := by
  induction m with
  | nil => simp [mapGet]
  | cons hd tl ih =>
    obtain ⟨k2, v2⟩ := hd
    simp only [List.map_cons, List.mem_cons, not_or] at h
    have h2 : ¬k2 = k := fun hh => h.1 hh.symm
    simp [mapGet, h2, ih h.2]

/-- Deleting a key from a map with pairwise-distinct keys removes it:
the lookup after a successful delete misses. -/
theorem mapGet_mapDelete_self {α : Type} (m : MapRoot α) (k : List Nat)
    (hnd : mapNodup m) (m2 : MapRoot α) (h : mapDelete m k = some m2) :
    mapGet m2 k = none := by
  induction m generalizing m2 with
  | nil => simp [mapDelete] at h
  | cons hd tl ih =>
    obtain ⟨k2, v2⟩ := hd
    unfold mapNodup at hnd
    simp only [List.map_cons, List.nodup_cons] at hnd
    by_cases h2 : k2 = k
    · subst h2
      simp only [mapDelete, if_true, eq_self_iff_true, Option.some.injEq] at h
      subst h
      exact mapGet_eq_none_of_not_mem _ _ hnd.1
    · simp only [mapDelete, if_neg h2, Option.map_eq_some'] at h
      obtain ⟨r, hr, hm2⟩ := h
      subst hm2
      simp [mapGet, h2, ih hnd.2 r hr]

/-! ## Lemmas about the varint encoder -/

/-- Unfolding rule for the varint encoder: the fuel is irrelevant as soon
as it dominates the argument. -/
theorem varintAux_fuel (f1 f2 n : Nat) (h1 : n ≤ f1) (h2 : n ≤ f2) :
    varintAux f1 n = varintAux f2 n := by
  induction f1 using Nat.strong_induction_on generalizing f2 n with
  | _ f1 ih =>
    match f1, f2 with
    | 0, 0 => rfl
    | 0, g + 1 =>
      interval_cases n
      simp [varintAux]
    | g + 1, 0 =>
      interval_cases n
      simp [varintAux]
    | g + 1, g2 + 1 =>
      simp only [varintAux]
      by_cases hlt : n < 128
      · simp [hlt]
      · simp only [hlt, if_false]
        have hn : 0 < n := by omega
        have hd : n / 128 < n := Nat.div_lt_self hn (by omega)
        rw [ih g (by omega) g2 (n / 128) (by omega) (by omega)]

/-- Recurrence satisfied by `varint`. -/
theorem varint_eq (n : Nat) :
    varint n = if n < 128 then [n] else (n % 128 + 128) :: varint (n / 128) := by
  unfold varint
  by_cases h : n < 128
  · match n, h with
    | 0, _ => simp [varintAux]
    | m + 1, h => simp [varintAux, h]
  · have hn : 0 < n := by omega
    match n, hn with
    | m + 1, _ =>
      simp only [varintAux, h, if_false]
      have : m + 1 ≥ 128 := by omega
      rw [varintAux_fuel m ((m + 1) / 128) ((m + 1) / 128)
        (by have := Nat.div_lt_self (by omega : 0 < m + 1) (by omega : 1 < 128); omega)
        (le_refl _)]

/-- Varint encodings are never empty. -/
theorem varint_ne_nil (n : Nat) : varint n ≠ [] := by
  rw [varint_eq]
  by_cases h : n < 128 <;> simp [h]

/-- Continuation-bit discipline of varint bytes: every byte is below 128
exactly when it is the last one. -/
inductive VarintShape : List Nat → Prop
  | single (a : Nat) (h : a < 128) : VarintShape [a]
  | cons (a : Nat) (l : List Nat) (h : 128 ≤ a) (hl : VarintShape l) :
      VarintShape (a :: l)

/-- Varint encodings obey the continuation-bit discipline. -/
theorem varint_shape (n : Nat) : VarintShape (varint n) := by
  induction n using Nat.strong_induction_on with
  | _ n ih =>
    rw [varint_eq]
    by_cases h : n < 128
    · rw [if_pos h]
      exact VarintShape.single n h
    · rw [if_neg h]
      exact VarintShape.cons _ _ (by omega)
        (ih (n / 128) (Nat.div_lt_self (by omega) (by omega)))

/-- A well-shaped byte string is never a proper prefix of another
well-shaped one: the terminator byte of the shorter one would need its
continuation bit set in the longer one. -/
theorem varintShape_no_proper_prefix {u z : List Nat}
    (hu : VarintShape u) (hz : z ≠ []) (hv : VarintShape (u ++ z)) : False := by
  induction hu with
  | single a ha =>
    cases z with
    | nil => exact hz rfl
    | cons c cs =>
      cases hv with
      | cons b l hb hl => omega
  | cons a l ha hl ih =>
    rw [List.cons_append] at hv
    generalize hw : l ++ z = w at hv
    cases hv with
    | single b hb => exact hz (List.append_eq_nil.mp hw).2
    | cons b m hb hm => exact ih (hw.symm ▸ hm)

/-- Varint encoding is injective. -/
theorem varint_inj (m n : Nat) (h : varint m = varint n) : m = n := by
  induction m using Nat.strong_induction_on generalizing n with
  | _ m ih =>
    rw [varint_eq m, varint_eq n] at h
    by_cases hm : m < 128 <;> by_cases hn : n < 128
    · rw [if_pos hm, if_pos hn] at h
      simpa using h
    · rw [if_pos hm, if_neg hn] at h
      have ht := congrArg List.tail h
      simp only [List.tail_cons] at ht
      exact absurd ht.symm (varint_ne_nil _)
    · rw [if_neg hm, if_pos hn] at h
      have ht := congrArg List.tail h
      simp only [List.tail_cons] at ht
      exact absurd ht (varint_ne_nil _)
    · rw [if_neg hm, if_neg hn] at h
      rw [List.cons.injEq] at h
      have h2 : m / 128 = n / 128 :=
        ih (m / 128) (Nat.div_lt_self (by omega) (by omega)) _ h.2
      omega

/-! ## Lemmas about the address encoding -/

/-- Address byte encodings are never empty. -/
theorem address_to_bytes_ne_nil (a : Address) : a.to_bytes ≠ [] := by
  cases a <;> simp [Address.to_bytes]

/-- Protocol indicator byte of an address. -/
def protocolByte : Address → Nat
  | .id _ => 0
  | .secp _ => 1
  | .actor _ => 2
  | .bls _ => 3

/-- The first byte of an address encoding is its protocol byte. -/
theorem address_to_bytes_head (a : Address) :
    a.to_bytes.head? = some (protocolByte a) := by
  cases a <;> rfl

/-- Address byte encoding is injective. -/
theorem address_to_bytes_inj (a b : Address) (h : a.to_bytes = b.to_bytes) :
    a = b := by
  cases a <;> cases b <;>
      simp only [Address.to_bytes, List.cons.injEq] at h <;>
      obtain ⟨h1, h2⟩ := h <;>
      first
        | exact absurd h1 (by decide)
        | exact congrArg Address.id (varint_inj _ _ h2)
        | exact congrArg Address.secp h2
        | exact congrArg Address.actor h2
        | exact congrArg Address.bls h2

/-- Concatenating two well-formed address encodings in the two orders
cannot agree when the first encoding is strictly shorter: same length
forces equal protocols, fixed-payload protocols force equal lengths, and
for two ID addresses the shorter varint would be a proper prefix of the
longer, contradicting the continuation-bit discipline. -/
theorem address_pair_comm_lt (a b : Address) (ha : a.wf = true) (hb : b.wf = true)
    (hlt : a.to_bytes.length < b.to_bytes.length)
    (h : a.to_bytes ++ b.to_bytes = b.to_bytes ++ a.to_bytes) : False := by
  have hx : b.to_bytes.take a.to_bytes.length = a.to_bytes :=
    calc b.to_bytes.take a.to_bytes.length
        = (b.to_bytes ++ a.to_bytes).take a.to_bytes.length :=
          (List.take_append_of_le_length (le_of_lt hlt)).symm
      _ = (a.to_bytes ++ b.to_bytes).take a.to_bytes.length := by rw [h]
      _ = a.to_bytes := List.take_left _ _
  obtain ⟨z, hzne, hy⟩ : ∃ z, z ≠ [] ∧ b.to_bytes = a.to_bytes ++ z := by
    refine ⟨b.to_bytes.drop a.to_bytes.length, ?_, ?_⟩
    · intro hnil
      have hlen := congrArg List.length hnil
      rw [List.length_drop] at hlen
      simp at hlen
      omega
    · conv_lhs => rw [← List.take_append_drop a.to_bytes.length b.to_bytes]
      rw [hx]
  have hhead : protocolByte a = protocolByte b := by
    have h2 := address_to_bytes_head b
    rw [hy] at h2
    cases hxc : a.to_bytes with
    | nil => exact absurd hxc (address_to_bytes_ne_nil a)
    | cons c cs =>
      rw [hxc] at h2
      have h1 := address_to_bytes_head a
      rw [hxc] at h1
      simp only [List.cons_append, List.head?_cons, Option.some.injEq] at h1 h2
      rw [← h1, ← h2]
  cases a with
  | id m =>
    cases b with
    | id n =>
      have hv : varint n = varint m ++ z := by
        simp only [Address.to_bytes, List.cons_append, List.cons.injEq] at hy
        exact hy.2
      exact varintShape_no_proper_prefix (varint_shape m) hzne (hv ▸ varint_shape n)
    | secp p => simp [protocolByte] at hhead
    | actor p => simp [protocolByte] at hhead
    | bls p => simp [protocolByte] at hhead
  | secp p =>
    cases b with
    | id n => simp [protocolByte] at hhead
    | secp q =>
      simp only [Address.wf, beq_iff_eq] at ha hb
      simp only [Address.to_bytes, List.length_cons, ha, hb] at hlt
      omega
    | actor q => simp [protocolByte] at hhead
    | bls q => simp [protocolByte] at hhead
  | actor p =>
    cases b with
    | id n => simp [protocolByte] at hhead
    | secp q => simp [protocolByte] at hhead
    | actor q =>
      simp only [Address.wf, beq_iff_eq] at ha hb
      simp only [Address.to_bytes, List.length_cons, ha, hb] at hlt
      omega
    | bls q => simp [protocolByte] at hhead
  | bls p =>
    cases b with
    | id n => simp [protocolByte] at hhead
    | secp q => simp [protocolByte] at hhead
    | actor q => simp [protocolByte] at hhead
    | bls q =>
      simp only [Address.wf, beq_iff_eq] at ha hb
      simp only [Address.to_bytes, List.length_cons, ha, hb] at hlt
      omega

/-- Concatenating two distinct well-formed address encodings in the two
orders never agrees. -/
theorem address_pair_comm_ne (a b : Address) (ha : a.wf = true) (hb : b.wf = true)
    (hne : a ≠ b) : a.to_bytes ++ b.to_bytes ≠ b.to_bytes ++ a.to_bytes := by
  intro h
  rcases lt_trichotomy a.to_bytes.length b.to_bytes.length with hlt | heq | hgt
  · exact address_pair_comm_lt a b ha hb hlt h
  · exact hne (address_to_bytes_inj a b (List.append_inj h heq).1)
  · exact address_pair_comm_lt b a hb ha hgt h.symm

/-! ## Lemmas about truncated integer division -/

/-- Truncated division of a nonnegative numerator by a natural number. -/
theorem int_tdiv_ofNat (m p : Nat) :
    Int.tdiv (Int.ofNat m) (Int.ofNat p) = Int.ofNat (m / p) := rfl

/-- Truncated division of a negative numerator by a natural number. -/
theorem int_tdiv_negSucc (m p : Nat) :
    Int.tdiv (Int.negSucc m) (Int.ofNat p) = -Int.ofNat ((m + 1) / p) := rfl

/-- Truncated division rounds toward zero: the quotient is the sign of the
numerator times the floor of the quotient of the magnitudes. -/
theorem int_tdiv_sign_natAbs (t : Int) (p : Nat) :
    Int.tdiv t (Int.ofNat p) = t.sign * Int.ofNat (t.natAbs / p) := by
  cases t with
  | ofNat m =>
    rw [int_tdiv_ofNat]
    cases m with
    | zero => simp
    | succ k => simp [Int.sign, Int.natAbs]
  | negSucc m =>
    rw [int_tdiv_negSucc]
    simp [Int.sign, Int.natAbs]

/-- Precision constant in `Int.ofNat` normal form. -/
theorem TOKEN_PRECISION_eq : TOKEN_PRECISION = Int.ofNat (10 ^ 18) := by decide

/-! ## Claim theorems -/

/-- C2: for every DataCap value v, `to_tokens` multiplies by exactly
10^18 with no loss; for every TokenAmount t, including negative t,
`from_tokens` divides by 10^18 with the remainder truncated toward zero:
the quotient is the sign of t times the floor of |t| / 10^18. -/
theorem dataCap_token_conversion_exact (v t : Int) :
    (DataCap.mk v).to_tokens = v * 10 ^ 18 ∧
    (DataCap.from_tokens t).val = t.sign * Int.ofNat (t.natAbs / 10 ^ 18) := by
  constructor
  · rfl
  · show Int.tdiv t TOKEN_PRECISION = _
    rw [TOKEN_PRECISION_eq, int_tdiv_sign_natAbs]

/-- C3: for every non-negative integer n, converting `DataCap n` to
tokens and back is an exact round-trip. -/
theorem dataCap_roundtrip (n : Int) (h : 0 ≤ n) :
    DataCap.from_tokens ((DataCap.mk n).to_tokens) = DataCap.mk n := by
  obtain ⟨m, rfl⟩ := Int.eq_ofNat_of_zero_le h
  show DataCap.mk (Int.tdiv (Int.ofNat m * TOKEN_PRECISION) TOKEN_PRECISION) = _
  rw [TOKEN_PRECISION_eq]
  have hmul : Int.ofNat m * Int.ofNat (10 ^ 18) = Int.ofNat (m * 10 ^ 18) := rfl
  rw [hmul, int_tdiv_ofNat, Nat.mul_div_cancel m (by positivity)]
  rfl

/-- Witness for C3 at n = 5. -/
theorem dataCap_roundtrip_witness :
    (0 : Int) ≤ 5 ∧ DataCap.from_tokens ((DataCap.mk 5).to_tokens) = DataCap.mk 5 :=
  ⟨by decide, dataCap_roundtrip 5 (by decide)⟩

/-- C8: DataCap addition and subtraction act directly on the wrapped
integer with no clamping to zero; subtracting a larger value from a
smaller one yields a negative DataCap. -/
theorem dataCap_arith_no_clamp (a b : DataCap) :
    (DataCap.add a b).val = a.val + b.val ∧
    (DataCap.sub a b).val = a.val - b.val ∧
    (a.val < b.val → (DataCap.sub a b).is_negative = true) := by
  refine ⟨rfl, rfl, fun h => ?_⟩
  simp only [DataCap.sub, DataCap.is_negative, decide_eq_true_eq]
  omega

/-- Witness for C8 at a = 1, b = 2. -/
theorem dataCap_arith_no_clamp_witness :
    (DataCap.mk 1).val < (DataCap.mk 2).val ∧
    (DataCap.sub (DataCap.mk 1) (DataCap.mk 2)).is_negative = true :=
  ⟨by decide, (dataCap_arith_no_clamp (DataCap.mk 1) (DataCap.mk 2)).2.2 (by decide)⟩

/-- C6: put_verifier is an unconditional upsert; after putting c1 and
then c2 for the same verifier, the map holds exactly c2 for it. -/
theorem put_verifier_latest_wins (s : State) (v : Address) (c1 c2 : DataCap) :
    State.get_verifier_cap
      ((State.put_verifier (State.put_verifier s v c1).1 v c2).1) v = some c2 := by
  simp only [State.put_verifier, State.get_verifier_cap]
  exact mapGet_mapSet_self _ _ _

/-- C10: put_verifier validates nothing at the state interface: every
cap, zero or negative included, is accepted and stored verbatim, so a
later get_verifier_cap can observe a negative allowance. -/
theorem put_verifier_unvalidated_upsert (s : State) (v : Address) (cap : DataCap) :
    (State.put_verifier s v cap).2 = none ∧
    State.get_verifier_cap (State.put_verifier s v cap).1 v = some cap ∧
    State.get_verifier_cap (State.put_verifier s v (DataCap.mk (-1))).1 v =
      some (DataCap.mk (-1)) ∧
    (DataCap.mk (-1)).is_negative = true := by
  refine ⟨rfl, ?_, ?_, by decide⟩
  · simp only [State.put_verifier, State.get_verifier_cap]
    exact mapGet_mapSet_self _ _ _
  · simp only [State.put_verifier, State.get_verifier_cap]
    exact mapGet_mapSet_self _ _ _

/-- C5: remove_verifier on a verifier with no entry fails with
invalid-argument and leaves the state, in particular the verifiers map
root, unchanged. -/
theorem remove_verifier_unknown_fails (s : State) (v : Address)
    (h : mapGet s.verifiers v.to_bytes = none) :
    State.remove_verifier s v =
      (s, some ⟨ExitCode.usrIllegalArgument, "verifier not found"⟩) ∧
    (State.remove_verifier s v).1.verifiers = s.verifiers := by
  have hd := mapDelete_eq_none s.verifiers v.to_bytes h
  unfold State.remove_verifier
  rw [hd]
  exact ⟨rfl, rfl⟩

/-- Witness for C5 on the empty verifiers map. -/
theorem remove_verifier_unknown_fails_witness :
    mapGet (State.mk (Address.id 0) (Address.id 0) [] []).verifiers
      (Address.id 1).to_bytes = none ∧
    State.remove_verifier (State.mk (Address.id 0) (Address.id 0) [] []) (Address.id 1) =
      (State.mk (Address.id 0) (Address.id 0) [] [],
        some ⟨ExitCode.usrIllegalArgument, "verifier not found"⟩) :=
  ⟨by decide,
    (remove_verifier_unknown_fails (State.mk (Address.id 0) (Address.id 0) [] [])
      (Address.id 1) (by decide)).1⟩

/-- C4: an absent verifier reads as none; after put_verifier the exact
cap is read back; after a successful remove_verifier the read is none
again (on a state whose map keys are distinct, as all states produced by
this actor are). -/
theorem verifier_cap_lifecycle (s : State) (v : Address) (cap : DataCap)
    (hnd : mapNodup s.verifiers) :
    (mapGet s.verifiers v.to_bytes = none → State.get_verifier_cap s v = none) ∧
    State.get_verifier_cap (State.put_verifier s v cap).1 v = some cap ∧
    ((State.remove_verifier s v).2 = none →
      State.get_verifier_cap (State.remove_verifier s v).1 v = none) := by
  refine ⟨fun h => h, ?_, fun hsucc => ?_⟩
  · simp only [State.put_verifier, State.get_verifier_cap]
    exact mapGet_mapSet_self _ _ _
  · unfold State.remove_verifier at hsucc ⊢
    cases hc : mapDelete s.verifiers v.to_bytes with
    | none =>
      rw [hc] at hsucc
      simp at hsucc
    | some m =>
      simp only [State.get_verifier_cap]
      exact mapGet_mapDelete_self s.verifiers v.to_bytes hnd m hc

/-- Witness for C4 on the empty state. -/
theorem verifier_cap_lifecycle_witness :
    mapNodup (State.mk (Address.id 0) (Address.id 0) [] []).verifiers ∧
    ((mapGet (State.mk (Address.id 0) (Address.id 0) [] []).verifiers
        (Address.id 1).to_bytes = none →
      State.get_verifier_cap (State.mk (Address.id 0) (Address.id 0) [] [])
        (Address.id 1) = none) ∧
    State.get_verifier_cap
      (State.put_verifier (State.mk (Address.id 0) (Address.id 0) [] [])
        (Address.id 1) (DataCap.mk 7)).1 (Address.id 1) = some (DataCap.mk 7) ∧
    ((State.remove_verifier (State.mk (Address.id 0) (Address.id 0) [] [])
        (Address.id 1)).2 = none →
      State.get_verifier_cap
        (State.remove_verifier (State.mk (Address.id 0) (Address.id 0) [] [])
          (Address.id 1)).1 (Address.id 1) = none)) :=
  ⟨by decide,
    verifier_cap_lifecycle (State.mk (Address.id 0) (Address.id 0) [] [])
      (Address.id 1) (DataCap.mk 7) (by decide)⟩

/-- C9: put_verifier and remove_verifier leave root_key, token and
remove_data_cap_proposal_ids untouched whether they succeed or fail, and
get_verifier_cap reads only the verifiers field. -/
theorem state_ops_frame (s t : State) (v : Address) (cap : DataCap)
    (hvt : s.verifiers = t.verifiers) :
    (State.put_verifier s v cap).1.root_key = s.root_key ∧
    (State.put_verifier s v cap).1.token = s.token ∧
    (State.put_verifier s v cap).1.remove_data_cap_proposal_ids =
      s.remove_data_cap_proposal_ids ∧
    (State.remove_verifier s v).1.root_key = s.root_key ∧
    (State.remove_verifier s v).1.token = s.token ∧
    (State.remove_verifier s v).1.remove_data_cap_proposal_ids =
      s.remove_data_cap_proposal_ids ∧
    State.get_verifier_cap s v = State.get_verifier_cap t v := by
  have hrem : (State.remove_verifier s v).1.root_key = s.root_key ∧
      (State.remove_verifier s v).1.token = s.token ∧
      (State.remove_verifier s v).1.remove_data_cap_proposal_ids =
        s.remove_data_cap_proposal_ids := by
    unfold State.remove_verifier
    cases mapDelete s.verifiers v.to_bytes with
    | none => exact ⟨rfl, rfl, rfl⟩
    | some m => exact ⟨rfl, rfl, rfl⟩
  have hget : State.get_verifier_cap s v = State.get_verifier_cap t v := by
    unfold State.get_verifier_cap
    rw [hvt]
  exact ⟨rfl, rfl, rfl, hrem.1, hrem.2.1, hrem.2.2, hget⟩

/-- Witness for C9 with two identical states. -/
theorem state_ops_frame_witness :
    (State.mk (Address.id 0) (Address.id 0) [] []).verifiers =
      (State.mk (Address.id 0) (Address.id 0) [] []).verifiers ∧
    State.get_verifier_cap (State.mk (Address.id 0) (Address.id 0) [] [])
        (Address.id 1) =
      State.get_verifier_cap (State.mk (Address.id 0) (Address.id 0) [] [])
        (Address.id 1) :=
  ⟨rfl,
    (state_ops_frame (State.mk (Address.id 0) (Address.id 0) [] [])
      (State.mk (Address.id 0) (Address.id 0) [] [])
      (Address.id 1) (DataCap.mk 1) rfl).2.2.2.2.2.2⟩

/-- C7: AddrPairKey serializes as the ordered concatenation of the two
address encodings, with no sorting or normalization, and for distinct
well-formed addresses the two orders give different keys. -/
theorem addrPairKey_ordered_concat (a b : Address) (ha : a.wf = true)
    (hb : b.wf = true) (hne : a ≠ b) :
    (∀ p q : Address, (AddrPairKey.new p q).to_bytes = p.to_bytes ++ q.to_bytes) ∧
    (AddrPairKey.new a b).to_bytes ≠ (AddrPairKey.new b a).to_bytes :=
  ⟨fun _ _ => rfl, address_pair_comm_ne a b ha hb hne⟩

/-- Witness for C7 at the ID addresses 1 and 2. -/
theorem addrPairKey_ordered_concat_witness :
    (Address.id 1).wf = true ∧ (Address.id 2).wf = true ∧
    Address.id 1 ≠ Address.id 2 ∧
    (AddrPairKey.new (Address.id 1) (Address.id 2)).to_bytes ≠
      (AddrPairKey.new (Address.id 2) (Address.id 1)).to_bytes :=
  ⟨by decide, by decide, by decide,
    (addrPairKey_ordered_concat (Address.id 1) (Address.id 2)
      (by decide) (by decide) (by decide)).2⟩

/-- C1: every successful run of the dual-authorization removal protocol
advances the (verifier_1, client) and (verifier_2, client) counters in
proposal_ids by exactly 1 from their prior values (an absent entry reads
as 0), lowers the client's token-actor balance by amount.to_tokens()
where amount = min(data_cap_amount_to_remove, the client's balance in
data-cap units), and returns { verified_client, data_cap_removed = amount }. -/
theorem removal_success_spec
    (verify : Address → List Nat → Signature → Bool)
    (serializeProposal : RemoveDataCapProposal → List Nat)
    (s : State) (bal : TokenAmount) (params : RemoveDataCapParams)
    (s2 : State) (bal2 : TokenAmount) (ret : RemoveDataCapReturn)
    (h : removeVerifiedClientDataCap verify serializeProposal s bal params =
      Except.ok (s2, bal2, ret)) :
    mapGet s2.remove_data_cap_proposal_ids
        (AddrPairKey.new params.verifier_request_1.verifier
          params.verified_client_to_remove).to_bytes =
      some ⟨((mapGet s.remove_data_cap_proposal_ids
        (AddrPairKey.new params.verifier_request_1.verifier
          params.verified_client_to_remove).to_bytes).getD ⟨0⟩).id + 1⟩ ∧
    mapGet s2.remove_data_cap_proposal_ids
        (AddrPairKey.new params.verifier_request_2.verifier
          params.verified_client_to_remove).to_bytes =
      some ⟨((mapGet s.remove_data_cap_proposal_ids
        (AddrPairKey.new params.verifier_request_2.verifier
          params.verified_client_to_remove).to_bytes).getD ⟨0⟩).id + 1⟩ ∧
    bal2 = bal - (DataCap.mk (min params.data_cap_amount_to_remove.val
      (DataCap.from_tokens bal).val)).to_tokens ∧
    ret = ⟨params.verified_client_to_remove,
      DataCap.mk (min params.data_cap_amount_to_remove.val
        (DataCap.from_tokens bal).val)⟩ := by
  simp only [removeVerifiedClientDataCap] at h
  split at h
  · exact Except.noConfusion h
  split at h
  · exact Except.noConfusion h
  split at h
  · exact Except.noConfusion h
  split at h
  · exact Except.noConfusion h
  split at h
  · exact Except.noConfusion h
  split at h
  · exact Except.noConfusion h
  rw [Except.ok.injEq, Prod.mk.injEq, Prod.mk.injEq] at h
  obtain ⟨hs, hb, hr⟩ := h
  subst hs
  subst hb
  subst hr
  refine ⟨?_, ?_, rfl, rfl⟩
  · by_cases hk : (AddrPairKey.new params.verifier_request_2.verifier
        params.verified_client_to_remove).to_bytes =
      (AddrPairKey.new params.verifier_request_1.verifier
        params.verified_client_to_remove).to_bytes
    · rw [hk, mapGet_mapSet_self]
    · rw [mapGet_mapSet_other _ _ _ _ hk, mapGet_mapSet_self]
  · exact mapGet_mapSet_self _ _ _

/-- Witness for C1: a concrete successful run with verifiers 1 and 2,
client 3, a client balance of 3 token-precision units and a request for
2 data-cap units. -/
theorem removal_success_spec_witness :
    (removeVerifiedClientDataCap (fun _ _ _ => true) (fun _ => [])
      removalDemoState (3 * 10 ^ 18) removalDemoParams =
      Except.ok (removalDemoResultState, 10 ^ 18,
        RemoveDataCapReturn.mk (Address.id 3) (DataCap.mk 2))) ∧
    mapGet removalDemoResultState.remove_data_cap_proposal_ids
        (AddrPairKey.new removalDemoParams.verifier_request_1.verifier
          removalDemoParams.verified_client_to_remove).to_bytes =
      some ⟨((mapGet removalDemoState.remove_data_cap_proposal_ids
        (AddrPairKey.new removalDemoParams.verifier_request_1.verifier
          removalDemoParams.verified_client_to_remove).to_bytes).getD ⟨0⟩).id + 1⟩ ∧
    mapGet removalDemoResultState.remove_data_cap_proposal_ids
        (AddrPairKey.new removalDemoParams.verifier_request_2.verifier
          removalDemoParams.verified_client_to_remove).to_bytes =
      some ⟨((mapGet removalDemoState.remove_data_cap_proposal_ids
        (AddrPairKey.new removalDemoParams.verifier_request_2.verifier
          removalDemoParams.verified_client_to_remove).to_bytes).getD ⟨0⟩).id + 1⟩ ∧
    (10 ^ 18 : TokenAmount) = 3 * 10 ^ 18 -
      (DataCap.mk (min removalDemoParams.data_cap_amount_to_remove.val
        (DataCap.from_tokens (3 * 10 ^ 18)).val)).to_tokens ∧
    RemoveDataCapReturn.mk (Address.id 3) (DataCap.mk 2) =
      ⟨removalDemoParams.verified_client_to_remove,
        DataCap.mk (min removalDemoParams.data_cap_amount_to_remove.val
          (DataCap.from_tokens (3 * 10 ^ 18)).val)⟩ :=
  ⟨rfl,
    removal_success_spec (fun _ _ _ => true) (fun _ => [])
      removalDemoState (3 * 10 ^ 18) removalDemoParams
      removalDemoResultState (10 ^ 18)
      (RemoveDataCapReturn.mk (Address.id 3) (DataCap.mk 2)) rfl⟩
